import Mathlib

/-!
Verification of the weighbridge telemetry subsystem.

The development shallowly embeds the register decoder, the register-discovery
probe (src/modbus_probe.py) and the two weight-reading client loops
(src/camera_viewer.py: read_weight_loop and read_weight_ascii_loop).
Machine integers are modelled as Nat/Int with explicit 16/32-bit masking where
the code masks; floating-point values (scale divisor, parsed weights) are
modelled as exact rationals.
-/

namespace Weighbridge

/-! ### Register decoder (src/modbus_probe.py, decode_* functions) -/

/-- `decode_u16_list(registers)`: each register masked to 16 bits. -/
def decode_u16_list (registers : List Nat) : List Nat :=
  registers.map (fun r => r &&& 0xFFFF)

/-- `decode_s16_list(registers)`: two's-complement reinterpretation of each
16-bit register (`v - 0x10000` when bit 15 is set). -/
def decode_s16_list (registers : List Nat) : List Int :=
  registers.map (fun r =>
    let v : Nat := r &&& 0xFFFF
    if v &&& 0x8000 ≠ 0 then (v : Int) - 0x10000 else (v : Int))

/-- `decode_u32_pairs(registers, big_endian)`: the Python loop
`for i in range(0, len(registers) - 1, 2)` visits the consecutive pairs
(0,1), (2,3), …, stopping before a trailing unpaired register; here that
iteration is structural recursion consuming two registers per step.
Each pair is combined as `((hi & 0xFFFF) << 16) | (lo & 0xFFFF)`, with
`hi, lo = (registers[i], registers[i+1])` when big-endian, swapped otherwise. -/
def decode_u32_pairs : List Nat → Bool → List Nat
  | r0 :: r1 :: rest, big_endian =>
      let hi := if big_endian then r0 else r1
      let lo := if big_endian then r1 else r0
      (((hi &&& 0xFFFF) <<< 16) ||| (lo &&& 0xFFFF)) :: decode_u32_pairs rest big_endian
  | _, _ => []

/-- `decode_s32_pairs(registers, big_endian)`: same pairing as
`decode_u32_pairs`, then two's-complement reinterpretation over 32 bits
(`u - 0x100000000` when bit 31 is set). -/
def decode_s32_pairs : List Nat → Bool → List Int
  | r0 :: r1 :: rest, big_endian =>
      let hi := if big_endian then r0 else r1
      let lo := if big_endian then r1 else r0
      let u : Nat := ((hi &&& 0xFFFF) <<< 16) ||| (lo &&& 0xFFFF)
      (if u &&& 0x80000000 ≠ 0 then (u : Int) - 0x100000000 else (u : Int))
        :: decode_s32_pairs rest big_endian
  | _, _ => []

/-! ### Modbus polling loop (src/camera_viewer.py, read_weight_loop) -/

/-- Outcome of one `read_holding_registers`/`read_input_registers` call:
the response's error flag and its register payload. -/
structure ModbusReadResult where
  isError : Bool
  registers : List Nat
  deriving DecidableEq

/-- One cycle of `read_weight_loop` after the read returned without raising:
if `result.isError()` the cycle emits nothing (logs and sleeps); otherwise
`raw = result.registers[0] if len(result.registers) > 0 else 0` and the
emitted weight is `float(raw) / (divisor if divisor != 0 else 1)`. -/
def pollOnce (result : ModbusReadResult) (divisor : ℚ) : Option ℚ :=
  if result.isError then none
  else
    let raw : Nat :=
      match result.registers with
      | [] => 0
      | r :: _ => r
    some ((raw : ℚ) / (if divisor ≠ 0 then divisor else 1))

/-! ### ASCII line loop (src/camera_viewer.py, read_weight_ascii_loop)

The loop body, for one received line: decode bytes (`errors='ignore'`),
`strip()`, search the configured pattern (default `([-+]?\d+(?:\.\d+)?)`),
`float()` the captured group, divide when `divisor and divisor != 1`, and
format to `decimals` places ("auto" and unparsable both mean 2).
Text is modelled post-decode as a list of characters. -/

/-- Python `str.strip()`: drop leading and trailing whitespace. -/
def pyStrip (cs : List Char) : List Char :=
  ((cs.dropWhile Char.isWhitespace).reverse.dropWhile Char.isWhitespace).reverse

/-- Greedy `\d+`/`\d*`: the longest digit run at the head, and the rest. -/
def spanDigits : List Char → List Char × List Char
  | [] => ([], [])
  | c :: cs =>
      if c.isDigit then
        let p := spanDigits cs
        (c :: p.1, p.2)
      else ([], c :: cs)

/-- Attempt of the default pattern `[-+]?\d+(?:\.\d+)?` anchored at the head
of `cs`: optional sign, one-or-more digits (greedy), then optionally a dot
followed by one-or-more digits (greedy).  Returns the matched characters.
When a sign is present but not followed by a digit, the regex engine
backtracks to matching without the sign, which also fails since the sign
character is not a digit — hence `none`. -/
def matchNumber (cs : List Char) : Option (List Char) :=
  let (sign, rest) :=
    match cs with
    | c :: cs' => if c = '-' ∨ c = '+' then ([c], cs') else (([] : List Char), c :: cs')
    | [] => (([] : List Char), ([] : List Char))
  let (ds, rest2) := spanDigits rest
  if ds = [] then none
  else
    match rest2 with
    | '.' :: r3 =>
        let fs := (spanDigits r3).1
        if fs = [] then some (sign ++ ds) else some (sign ++ ds ++ '.' :: fs)
    | _ => some (sign ++ ds)

/-- `re.search` of the default pattern: leftmost match, scanning start
positions left to right. -/
def searchNumber : List Char → Option (List Char)
  | [] => none
  | c :: cs =>
      match matchNumber (c :: cs) with
      | some m => some m
      | none => searchNumber cs

/-- Numeric value of a digit list, most significant first. -/
def natOfDigits (ds : List Char) : Nat :=
  ds.foldl (fun a c => a * 10 + (c.toNat - '0'.toNat)) 0

/-- `float()` on an unsigned token `digits[.digits]` produced by the pattern. -/
def parseUnsigned (cs : List Char) : ℚ :=
  let (ds, rest) := spanDigits cs
  match rest with
  | '.' :: fs => (natOfDigits ds : ℚ) + (natOfDigits fs : ℚ) / (10 : ℚ) ^ fs.length
  | _ => (natOfDigits ds : ℚ)

/-- `float()` on a token matched by the default pattern (optional sign,
digits, optional fraction). -/
def parseNumberToken (cs : List Char) : ℚ :=
  match cs with
  | '-' :: rest => -parseUnsigned rest
  | '+' :: rest => parseUnsigned rest
  | _ => parseUnsigned cs

/-- `if divisor and divisor != 1: value = value / divisor` — a zero divisor
is falsy, so the division only happens when the divisor is neither 0 nor 1. -/
def applyDivisor (divisor value : ℚ) : ℚ :=
  if divisor ≠ 0 ∧ divisor ≠ 1 then value / divisor else value

/-- Round to the nearest integer, ties to even (the rounding used by
`format(value, '.Nf')`). -/
def roundHalfEven (q : ℚ) : ℤ :=
  if q - ⌊q⌋ < 1 / 2 then ⌊q⌋
  else if q - ⌊q⌋ > 1 / 2 then ⌊q⌋ + 1
  else if ⌊q⌋ % 2 = 0 then ⌊q⌋ else ⌊q⌋ + 1

/-- Decimal digits of `n` padded with leading zeros to width `w`. -/
def padDigits (n : Nat) (w : Nat) : String :=
  let s := toString n
  String.mk (List.replicate (w - s.length) '0') ++ s

/-- `f"{value:.{prec}f}"` on an exact nonnegative rational (digits only). -/
def formatFixedAbs (value : ℚ) (prec : Nat) : String :=
  let m : Nat := (roundHalfEven (value * (10 : ℚ) ^ prec)).toNat
  if prec = 0 then toString m
  else toString (m / 10 ^ prec) ++ "." ++ padDigits (m % 10 ^ prec) prec

/-- `f"{value:.{prec}f}"` on an exact rational. -/
def formatFixed (value : ℚ) (prec : Nat) : String :=
  if value < 0 then "-" ++ formatFixedAbs (-value) prec
  else formatFixedAbs value prec

/-- The display-formatting step: 2 decimals when `decimals_env` is "auto",
else `int(decimals_env)` decimals, falling back to 2 when that `int()` (or
the format itself, for a negative precision) raises. -/
def formatWeight (value : ℚ) (decimals_env : String) : String :=
  if decimals_env = "auto" then formatFixed value 2
  else
    match decimals_env.toInt? with
    | some d => if d < 0 then formatFixed value 2 else formatFixed value d.toNat
    | none => formatFixed value 2

/-- Pattern search and `float()` parse applied to one stripped line:
`none` when the pattern does not match (the cycle is skipped). -/
def ascii_parsed_value (data : List Char) : Option ℚ :=
  (searchNumber (pyStrip data)).map parseNumberToken

/-- Parsed value after the conditional scale division. -/
def ascii_scaled_value (data : List Char) (divisor : ℚ) : Option ℚ :=
  (ascii_parsed_value data).map (applyDivisor divisor)

/-- One full cycle of `read_weight_ascii_loop` on one received line:
the display string handed to the sink, or `none` when the cycle is
silently skipped. -/
def read_weight_ascii_cycle (data : List Char) (divisor : ℚ)
    (decimals_env : String) : Option String :=
  (ascii_scaled_value data divisor).map (fun v => formatWeight v decimals_env)

/-! ### Register probe (src/modbus_probe.py, probe) -/

/-- What one `read_holding_registers`/`read_input_registers` call does for a
given (unit, address, count): raise (`ModbusException` or a serial timeout —
both caught alike), or return a response with its error flag and registers.
The probe is polymorphic in the attached device, modelled as this oracle. -/
inductive ReadOutcome where
  | exception
  | response (isError : Bool) (registers : List Nat)

/-- Observable steps of the probe loop body: the read attempt issued for a
triple, and the `time.sleep(delay)` call. -/
inductive ProbeEvent where
  | attempt (unit address count : Nat)
  | sleep
  deriving DecidableEq

/-- The (unit, address, count) triples in the probe's fixed nested loop
order: `for unit in units: for address in range(address_start,
address_end + 1): for count in counts`. -/
def probeTriples (units : List Nat) (address_start address_end : Nat)
    (counts : List Nat) : List (Nat × Nat × Nat) :=
  units.flatMap (fun unit =>
    (List.range' address_start (address_end + 1 - address_start)).flatMap (fun address =>
      counts.map (fun count => (unit, address, count))))

/-- The loop body of `probe`, run over a list of triples: issue the read;
on a response that is not an error and has non-empty registers, append a
result; on an error response, an empty frame, or any raised exception, do
nothing (all exceptions are caught and ignored); then `time.sleep(delay)`
in every case.  Returns the accumulated results and the event trace. -/
def probeRun (device : Nat → Nat → Nat → ReadOutcome) :
    List (Nat × Nat × Nat) → List (Nat × Nat × Nat × List Nat) × List ProbeEvent
  | [] => ([], [])
  | (unit, address, count) :: rest =>
      let ok : Option (List Nat) :=
        match device unit address count with
        | .exception => none
        | .response isErr regs => if isErr = false ∧ regs ≠ [] then some regs else none
      let next := probeRun device rest
      (match ok with
       | some regs => (unit, address, count, regs) :: next.1
       | none => next.1,
       ProbeEvent.attempt unit address count :: ProbeEvent.sleep :: next.2)

/-- `probe(client, units, address_start, address_end, counts, delay, kind)`:
one full sweep, as results plus event trace. -/
def probe (device : Nat → Nat → Nat → ReadOutcome) (units : List Nat)
    (address_start address_end : Nat) (counts : List Nat) :
    List (Nat × Nat × Nat × List Nat) × List ProbeEvent :=
  probeRun device (probeTriples units address_start address_end counts)

/-- The read attempts recorded in an event trace, in order. -/
def attemptsOf (events : List ProbeEvent) : List (Nat × Nat × Nat) :=
  events.filterMap (fun e =>
    match e with
    | .attempt u a c => some (u, a, c)
    | .sleep => none)

/-! ### Unit-spec parsing (src/modbus_probe.py, parse_units) -/

/-- Python `str.split(sep)` for a one-character separator: split at every
occurrence, keeping empty parts. -/
def splitOnChar (sep : Char) : List Char → List (List Char)
  | [] => [[]]
  | c :: cs =>
      match splitOnChar sep cs with
      | [] => if c = sep then [[], []] else [[c]]
      | p :: ps => if c = sep then [] :: p :: ps else (c :: p) :: ps

/-- Python `int(s)`: strip whitespace, optional single sign, then at least
one digit and nothing else; `none` models the raised `ValueError`. -/
def pyInt (s : List Char) : Option Int :=
  let cs := pyStrip s
  let (sign, ds) :=
    match cs with
    | '-' :: rest => ((-1 : Int), rest)
    | '+' :: rest => ((1 : Int), rest)
    | rest => ((1 : Int), rest)
  if ds ≠ [] ∧ ds.all Char.isDigit then some (sign * (natOfDigits ds : Int)) else none

/-- Python `range(lo, hi + 1)` over ints, as a list. -/
def intRange (lo hi : Int) : List Int :=
  (List.range (hi + 1 - lo).toNat).map (fun k => lo + (k : Int))

/-- The accumulation phase of `parse_units(units_str)`: split on commas;
each stripped part is either a hyphenated range — split once on the first
hyphen, `int()` both sides, extend with `range(lo, hi + 1)` — or a single
`int()` literal.  `none` models a `ValueError` raised by any `int()` call. -/
def parse_units_raw (units_str : String) : Option (List Int) :=
  (splitOnChar ',' units_str.toList).foldlM (fun acc part =>
    let cs := pyStrip part
    if cs.contains '-' then
      let lo_s := cs.takeWhile (fun c => c ≠ '-')
      let hi_s := (cs.dropWhile (fun c => c ≠ '-')).tail
      match pyInt lo_s, pyInt hi_s with
      | some lo, some hi => some (acc ++ intRange lo hi)
      | _, _ => none
    else
      match pyInt cs with
      | some u => some (acc ++ [u])
      | none => none) []

/-- `parse_units(units_str)` = `sorted(set(...))` of the accumulated list:
the distinct mentioned units in ascending order. -/
def parse_units (units_str : String) : Option (List Int) :=
  (parse_units_raw units_str).map (fun l => l.dedup.insertionSort (fun a b => a ≤ b))

/-! ### Helper lemmas on the register decoder -/

theorem decode_u32_pairs_length : ∀ (regs : List Nat) (be : Bool),
    (decode_u32_pairs regs be).length = regs.length / 2
  | [], _ => by simp [decode_u32_pairs]
  | [_], _ => by simp [decode_u32_pairs]
  | _ :: _ :: rest, be => by
      simp [decode_u32_pairs, decode_u32_pairs_length rest be]
      omega

theorem decode_s32_pairs_eq_map : ∀ (regs : List Nat) (be : Bool),
    decode_s32_pairs regs be =
      (decode_u32_pairs regs be).map
        (fun (u : Nat) => if u &&& 0x80000000 ≠ 0 then (u : Int) - 0x100000000 else (u : Int))
  | [], _ => rfl
  | [_], _ => rfl
  | _ :: _ :: rest, be => by
      simp [decode_u32_pairs, decode_s32_pairs, decode_s32_pairs_eq_map rest be]

theorem combine32_lt (h l : Nat) : ((h &&& 0xFFFF) <<< 16) ||| (l &&& 0xFFFF) < 2 ^ 32 := by
  apply Nat.or_lt_two_pow
  · have hh : h &&& 0xFFFF ≤ 0xFFFF := Nat.and_le_right
    rw [Nat.shiftLeft_eq]
    have e16 : (2 : Nat) ^ 16 = 65536 := by norm_num
    have e32 : (2 : Nat) ^ 32 = 4294967296 := by norm_num
    rw [e16, e32]
    omega
  · have hl : l &&& 0xFFFF ≤ 0xFFFF := Nat.and_le_right
    have e32 : (2 : Nat) ^ 32 = 4294967296 := by norm_num
    omega

theorem decode_u32_pairs_lt : ∀ (regs : List Nat) (be : Bool) (u : Nat),
    u ∈ decode_u32_pairs regs be → u < 2 ^ 32
  | [], _, u, hmem => by simp [decode_u32_pairs] at hmem
  | [_], _, u, hmem => by simp [decode_u32_pairs] at hmem
  | _ :: _ :: rest, be, u, hmem => by
      rcases (List.mem_cons).mp hmem with h | h
      · subst h; apply combine32_lt
      · exact decode_u32_pairs_lt rest be u h

theorem and_top_bit (u : Nat) (hlt : u < 2 ^ 32) : (u &&& 0x80000000 ≠ 0) ↔ 2 ^ 31 ≤ u := by
  have e : (0x80000000 : Nat) = 2 ^ 31 := by norm_num
  rw [e, Nat.and_two_pow, Nat.testBit_to_div_mod]
  have e31 : (2 : Nat) ^ 31 = 2147483648 := by norm_num
  have e32 : (2 : Nat) ^ 32 = 4294967296 := by norm_num
  by_cases hd : u / 2 ^ 31 % 2 = 1 <;> simp [hd] <;> omega

theorem decode_u32_pairs_dropLast : ∀ (regs : List Nat) (be : Bool),
    regs.length % 2 = 1 →
    decode_u32_pairs regs be = decode_u32_pairs regs.dropLast be
  | [], _, hodd => by simp at hodd
  | [_], _, _ => rfl
  | r0 :: r1 :: rest, be, hodd => by
      have hr : rest.length % 2 = 1 := by simp at hodd; omega
      have hne : rest ≠ [] := by
        intro e
        rw [e] at hr
        simp at hr
      rw [List.dropLast_cons₂, List.dropLast_cons_of_ne_nil hne]
      simp [decode_u32_pairs, decode_u32_pairs_dropLast rest be hr]

theorem decode_u32_pairs_getElem : ∀ (regs : List Nat) (be : Bool) (k a b : Nat),
    regs[2 * k]? = some a → regs[2 * k + 1]? = some b →
    (decode_u32_pairs regs be)[k]? =
      some ((((if be then a else b) &&& 0xFFFF) <<< 16) |||
        ((if be then b else a) &&& 0xFFFF))
  | [], _, k, a, b, ha, _ => by simp at ha
  | [r], be, k, a, b, ha, hb => by
      rcases k with _ | k
      · simp at hb
      · rw [show 2 * (k + 1) = 2 * k + 1 + 1 by ring] at ha
        simp at ha
  | r0 :: r1 :: rest, be, 0, a, b, ha, hb => by
      simp at ha hb
      subst ha
      subst hb
      simp [decode_u32_pairs]
  | r0 :: r1 :: rest, be, (k + 1), a, b, ha, hb => by
      have ha2 : rest[2 * k]? = some a := by
        rw [show 2 * (k + 1) = 2 * k + 1 + 1 by ring] at ha
        simpa using ha
      have hb2 : rest[2 * k + 1]? = some b := by
        rw [show 2 * (k + 1) + 1 = 2 * k + 1 + 1 + 1 by ring] at hb
        simpa using hb
      have ih := decode_u32_pairs_getElem rest be k a b ha2 hb2
      simpa [decode_u32_pairs] using ih

/-! ### Helper lemmas on the probe -/

theorem probeRun_events (device : Nat → Nat → Nat → ReadOutcome) :
    ∀ ts : List (Nat × Nat × Nat),
      (probeRun device ts).2 =
        ts.flatMap (fun t => [ProbeEvent.attempt t.1 t.2.1 t.2.2, ProbeEvent.sleep])
  | [] => rfl
  | (u, a, c) :: rest => by
      simp [probeRun, probeRun_events device rest]

theorem attemptsOf_probeRun (device : Nat → Nat → Nat → ReadOutcome)
    (ts : List (Nat × Nat × Nat)) :
    attemptsOf (probeRun device ts).2 = ts := by
  rw [probeRun_events]
  induction ts with
  | nil => rfl
  | cons t rest ih =>
      rcases t with ⟨u, a, c⟩
      simp [attemptsOf] at ih ⊢
      exact ih

theorem flatMap_const_length {a b : Type} (l : List a) (f : a → List b) (c : Nat)
    (h : ∀ x, (f x).length = c) : (l.flatMap f).length = l.length * c := by
  induction l with
  | nil => simp
  | cons x xs ih => simp [ih, h]; ring

theorem probeTriples_length (units : List Nat) (lo hi : Nat) (counts : List Nat) :
    (probeTriples units lo hi counts).length =
      units.length * ((hi + 1 - lo) * counts.length) := by
  apply flatMap_const_length
  intro u
  rw [flatMap_const_length _ _ counts.length (fun a => by simp)]
  simp

/-! ### The claims -/

/-- C1: for every successful non-error Modbus read whose frame is non-empty,
`pollOnce` emits a sample whose value is register 0 divided by the scale
divisor, a divisor of 0 being treated as 1 (raw value emitted undivided);
and registers beyond index 0 are never used: any non-error result with the
same head register yields the same emission. -/
theorem c1_pollOnce_first_register (res : ModbusReadResult) (divisor : ℚ)
    (herr : res.isError = false) (hne : res.registers ≠ []) :
    pollOnce res divisor =
      some ((res.registers.headI : ℚ) / (if divisor ≠ 0 then divisor else 1)) ∧
    (divisor = 0 → pollOnce res divisor = some (res.registers.headI : ℚ)) ∧
    ∀ res2 : ModbusReadResult, res2.isError = false →
      res2.registers.head? = res.registers.head? →
      pollOnce res2 divisor = pollOnce res divisor := by
  rcases res with ⟨e, regs⟩
  simp at herr
  subst herr
  rcases regs with _ | ⟨r, rest⟩
  · simp at hne
  · refine ⟨by simp [pollOnce], ?_, ?_⟩
    · intro h0
      subst h0
      simp [pollOnce]
    · intro res2 herr2 hhead
      rcases res2 with ⟨e2, regs2⟩
      simp at herr2
      subst herr2
      rcases regs2 with _ | ⟨r2, rest2⟩
      · simp at hhead
      · simp at hhead
        subst hhead
        simp [pollOnce]

/-- Witness for C1 at the concrete result `{isError := false, registers :=
[5, 7]}` with divisor 2: the emitted value is 5 / 2. -/
theorem c1_witness :
    pollOnce { isError := false, registers := [5, 7] } 2 = some ((5 : ℚ) / 2) := by
  have h := (c1_pollOnce_first_register ⟨false, [5, 7]⟩ 2 rfl (by simp)).1
  simpa using h

/-- C2 counterexample: a read that completes with `isError = false` and an
empty register payload does NOT skip the cycle — `raw = registers[0] if
len(registers) > 0 else 0` substitutes 0 and a sample is emitted. -/
theorem c2_counterexample :
    pollOnce { isError := false, registers := [] } 1 = some 0 ∧
    pollOnce { isError := false, registers := [] } 1 ≠ none := by
  constructor
  · simp [pollOnce]
  · simp [pollOnce]

/-- C2 as amended: for every Modbus read that completes without error but
returns an empty register payload, the polling loop emits a WeightSample
with value 0 (the raw value is substituted by 0, and 0 divided by any
divisor is 0); the cycle is not silently skipped. -/
theorem c2_empty_frame_emits_zero (res : ModbusReadResult) (divisor : ℚ)
    (herr : res.isError = false) (hempty : res.registers = []) :
    pollOnce res divisor = some 0 := by
  rcases res with ⟨e, regs⟩
  simp at herr hempty
  subst herr
  subst hempty
  simp [pollOnce]

/-- Witness for the amended C2 at `{isError := false, registers := []}` with
divisor 3. -/
theorem c2_witness :
    pollOnce { isError := false, registers := [] } 3 = some 0 :=
  c2_empty_frame_emits_zero ⟨false, []⟩ 3 rfl rfl

/-- C3: on the line "ST,+00012.34,kg\r\n" with the default pattern, divisor
1 and precision "auto", one pass of the ASCII loop extracts the token
"+00012.34", parses it to 12.34, applies no division (the scaled value is
the parsed value), and emits exactly "12.34". -/
theorem c3_ascii_line_example :
    searchNumber (pyStrip "ST,+00012.34,kg\r\n".toList) = some "+00012.34".toList ∧
    parseNumberToken "+00012.34".toList = 1234 / 100 ∧
    ascii_scaled_value "ST,+00012.34,kg\r\n".toList 1 =
      ascii_parsed_value "ST,+00012.34,kg\r\n".toList ∧
    read_weight_ascii_cycle "ST,+00012.34,kg\r\n".toList 1 "auto" = some "12.34" := by
  refine ⟨?_, ?_, ?_, ?_⟩
  · simp +decide [pyStrip, searchNumber, matchNumber, spanDigits, String.toList]
  · simp +decide [parseNumberToken, parseUnsigned, natOfDigits, spanDigits, String.toList]
    norm_num
  · have h1 : applyDivisor (1 : ℚ) = id := by
      funext v
      simp [applyDivisor]
    rw [ascii_scaled_value, h1, Option.map_id]
    rfl
  · simp +decide [read_weight_ascii_cycle, ascii_scaled_value, ascii_parsed_value, pyStrip,
      searchNumber, matchNumber, parseNumberToken, parseUnsigned, natOfDigits, spanDigits,
      applyDivisor, formatWeight, formatFixed, formatFixedAbs, roundHalfEven, padDigits,
      String.toList]
    norm_num
    rfl

/-- C4: for every frame of odd length n, the u32 and s32 decodes (either
endianness) return exactly (n - 1) / 2 values, equal to the decode of the
frame with its final register omitted; the decode is a total function, so
odd length is never an error. -/
theorem c4_odd_frame_decode (regs : List Nat) (be : Bool)
    (hodd : regs.length % 2 = 1) :
    (decode_u32_pairs regs be).length = (regs.length - 1) / 2 ∧
    (decode_s32_pairs regs be).length = (regs.length - 1) / 2 ∧
    decode_u32_pairs regs be = decode_u32_pairs regs.dropLast be ∧
    decode_s32_pairs regs be = decode_s32_pairs regs.dropLast be := by
  have hu := decode_u32_pairs_length regs be
  have hdrop := decode_u32_pairs_dropLast regs be hodd
  refine ⟨by omega, ?_, hdrop, ?_⟩
  · rw [decode_s32_pairs_eq_map, List.length_map]
    omega
  · rw [decode_s32_pairs_eq_map, decode_s32_pairs_eq_map, hdrop]

/-- Witness for C4 at the odd frame [1, 2, 3]: one value, and the trailing
register 3 is dropped. -/
theorem c4_witness :
    [1, 2, 3].length % 2 = 1 ∧
    ((decode_u32_pairs [1, 2, 3] true).length = ([1, 2, 3].length - 1) / 2 ∧
      (decode_s32_pairs [1, 2, 3] true).length = ([1, 2, 3].length - 1) / 2 ∧
      decode_u32_pairs [1, 2, 3] true = decode_u32_pairs ([1, 2, 3] : List Nat).dropLast true ∧
      decode_s32_pairs [1, 2, 3] true = decode_s32_pairs ([1, 2, 3] : List Nat).dropLast true) :=
  ⟨by decide, c4_odd_frame_decode [1, 2, 3] true (by decide)⟩

/-- C5: for every device behaviour, the probe issues exactly one attempt per
(unit, address, count) triple of the fixed nested order, and the number of
attempts is |units| * (hi - lo + 1) * |counts| — errors never abort or
truncate the sweep (the statement holds for an arbitrary device oracle,
hence independently of which attempts fail). -/
theorem c5_sweep_attempts (device : Nat → Nat → Nat → ReadOutcome)
    (units : List Nat) (lo hi : Nat) (counts : List Nat) (h : lo ≤ hi) :
    attemptsOf (probe device units lo hi counts).2 = probeTriples units lo hi counts ∧
    (attemptsOf (probe device units lo hi counts).2).length =
      units.length * (hi - lo + 1) * counts.length := by
  have ha : attemptsOf (probe device units lo hi counts).2 = probeTriples units lo hi counts :=
    attemptsOf_probeRun device _
  refine ⟨ha, ?_⟩
  rw [ha, probeTriples_length]
  have he : hi + 1 - lo = hi - lo + 1 := by omega
  rw [he, Nat.mul_assoc]

/-- Witness for C5 at the spec's example: units = [1, 2], addresses [0, 1],
counts = [1], with the read for (1, 0) raising a timeout: all 4 attempts
are still issued in order and the remaining 3 triples report results. -/
theorem c5_witness :
    (0 : Nat) ≤ 1 ∧
    attemptsOf (probe
        (fun u a _ => if u = 1 ∧ a = 0 then ReadOutcome.exception
          else ReadOutcome.response false [7])
        [1, 2] 0 1 [1]).2 = probeTriples [1, 2] 0 1 [1] ∧
    attemptsOf (probe
        (fun u a _ => if u = 1 ∧ a = 0 then ReadOutcome.exception
          else ReadOutcome.response false [7])
        [1, 2] 0 1 [1]).2 = [(1, 0, 1), (1, 1, 1), (2, 0, 1), (2, 1, 1)] ∧
    (probe
        (fun u a _ => if u = 1 ∧ a = 0 then ReadOutcome.exception
          else ReadOutcome.response false [7])
        [1, 2] 0 1 [1]).1 = [(1, 1, 1, [7]), (2, 0, 1, [7]), (2, 1, 1, [7])] ∧
    (attemptsOf (probe
        (fun u a _ => if u = 1 ∧ a = 0 then ReadOutcome.exception
          else ReadOutcome.response false [7])
        [1, 2] 0 1 [1]).2).length = 2 * (1 - 0 + 1) * 1 :=
  ⟨by decide,
   (c5_sweep_attempts _ [1, 2] 0 1 [1] (by decide)).1,
   by decide,
   by decide,
   (c5_sweep_attempts _ [1, 2] 0 1 [1] (by decide)).2⟩

/-- C6: for every frame and each register pair at even index i with i + 1 in
range, the big-endian u32 decode at position i / 2 is
((frame[i] & 0xFFFF) << 16) | (frame[i+1] & 0xFFFF) and the little-endian
decode swaps which register is high; in particular frame [1, 2] decodes to
[65538] (BE) and [131073] (LE). -/
theorem c6_pair_combine (regs : List Nat) (i a b : Nat) (hi : i % 2 = 0)
    (ha : regs[i]? = some a) (hb : regs[i + 1]? = some b) :
    (decode_u32_pairs regs true)[i / 2]? =
      some (((a &&& 0xFFFF) <<< 16) ||| (b &&& 0xFFFF)) ∧
    (decode_u32_pairs regs false)[i / 2]? =
      some (((b &&& 0xFFFF) <<< 16) ||| (a &&& 0xFFFF)) ∧
    decode_u32_pairs [0x0001, 0x0002] true = [65538] ∧
    decode_u32_pairs [0x0001, 0x0002] false = [131073] := by
  have hk : i = 2 * (i / 2) := by omega
  rw [hk] at ha hb
  refine ⟨?_, ?_, by decide, by decide⟩
  · simpa using decode_u32_pairs_getElem regs true (i / 2) a b ha hb
  · simpa using decode_u32_pairs_getElem regs false (i / 2) a b ha hb

/-- Witness for C6 at frame [1, 2], i = 0: BE gives 65538, LE gives 131073. -/
theorem c6_witness :
    (0 : Nat) % 2 = 0 ∧
    ([1, 2] : List Nat)[0]? = some 1 ∧ ([1, 2] : List Nat)[0 + 1]? = some 2 ∧
    (decode_u32_pairs [1, 2] true)[0 / 2]? =
      some ((((1 : Nat) &&& 0xFFFF) <<< 16) ||| ((2 : Nat) &&& 0xFFFF)) ∧
    (decode_u32_pairs [1, 2] false)[0 / 2]? =
      some ((((2 : Nat) &&& 0xFFFF) <<< 16) ||| ((1 : Nat) &&& 0xFFFF)) :=
  ⟨by decide, by decide, by decide,
   (c6_pair_combine [1, 2] 0 1 2 (by decide) (by decide) (by decide)).1,
   (c6_pair_combine [1, 2] 0 1 2 (by decide) (by decide) (by decide)).2.1⟩

/-- C7: in every sweep, for every device behaviour, the event trace is
exactly attempt-then-sleep for each triple in order: the delay sleep runs
exactly once after every attempt — success, error response and raised
exception alike — before the next triple. -/
theorem c7_sleep_after_every_attempt (device : Nat → Nat → Nat → ReadOutcome)
    (units : List Nat) (lo hi : Nat) (counts : List Nat) :
    (probe device units lo hi counts).2 =
      (probeTriples units lo hi counts).flatMap
        (fun t => [ProbeEvent.attempt t.1 t.2.1 t.2.2, ProbeEvent.sleep]) :=
  probeRun_events device _

/-- C8: for every unit specification string that parses, the resulting unit
list contains a unit iff it is mentioned by the accumulated literals and
ranges, with no duplicates, sorted ascending. -/
theorem c8_parse_units_sorted (s : String) (raw us : List Int)
    (h1 : parse_units_raw s = some raw) (h2 : parse_units s = some us) :
    (∀ x, x ∈ us ↔ x ∈ raw) ∧ us.Nodup ∧ us.Sorted (fun a b => a ≤ b) := by
  have he : us = raw.dedup.insertionSort (fun a b => a ≤ b) := by
    rw [parse_units, h1] at h2
    simpa using h2.symm
  subst he
  have hperm := List.perm_insertionSort (fun a b => a ≤ b) raw.dedup
  refine ⟨?_, ?_, ?_⟩
  · intro x
    rw [hperm.mem_iff, List.mem_dedup]
  · exact hperm.nodup_iff.mpr (List.nodup_dedup raw)
  · exact List.sorted_insertionSort (fun a b => a ≤ b) raw.dedup

/-- Witness for C8 at the spec "2,1-3,2" (a literal, a range and a
duplicate): mentioned units [2, 1, 2, 3, 2], result [1, 2, 3]; membership
checked at x = 2. -/
theorem c8_witness :
    parse_units_raw "2,1-3,2" = some [2, 1, 2, 3, 2] ∧
    parse_units "2,1-3,2" = some [1, 2, 3] ∧
    ((2 : Int) ∈ ([1, 2, 3] : List Int) ↔ (2 : Int) ∈ ([2, 1, 2, 3, 2] : List Int)) ∧
    ([1, 2, 3] : List Int).Nodup ∧
    ([1, 2, 3] : List Int).Sorted (fun a b => a ≤ b) := by
  have h := c8_parse_units_sorted "2,1-3,2" [2, 1, 2, 3, 2] [1, 2, 3]
    (by decide) (by decide)
  exact ⟨by decide, by decide, h.1 2, h.2.1, h.2.2⟩

/-- C9: for every frame and endianness, the s32 and u32 decodes have equal
length, and each signed value is congruent to the unsigned one modulo 2^32,
lies in [-2^31, 2^31 - 1], equals it when it is below 2^31 and equals it
minus 2^32 otherwise. -/
theorem c9_s32_u32_reinterpretation (regs : List Nat) (be : Bool) :
    (decode_s32_pairs regs be).length = (decode_u32_pairs regs be).length ∧
    ∀ (i u : Nat) (s : Int),
      (decode_u32_pairs regs be)[i]? = some u →
      (decode_s32_pairs regs be)[i]? = some s →
      s % 2 ^ 32 = (u : Int) % 2 ^ 32 ∧ -2 ^ 31 ≤ s ∧ s ≤ 2 ^ 31 - 1 ∧
      (u < 2 ^ 31 → s = (u : Int)) ∧ (2 ^ 31 ≤ u → s = (u : Int) - 2 ^ 32) := by
  constructor
  · rw [decode_s32_pairs_eq_map, List.length_map]
  · intro i u s hu hs
    rw [decode_s32_pairs_eq_map, List.getElem?_map, hu] at hs
    have hlt : u < 2 ^ 32 := by
      rcases List.getElem?_eq_some.mp hu with ⟨hlen, hval⟩
      exact decode_u32_pairs_lt regs be u (hval ▸ List.getElem_mem hlen)
    have hbit := and_top_bit u hlt
    have e31n : (2 : Nat) ^ 31 = 2147483648 := by norm_num
    have e32n : (2 : Nat) ^ 32 = 4294967296 := by norm_num
    have e31i : (2 : Int) ^ 31 = 2147483648 := by norm_num
    have e32i : (2 : Int) ^ 32 = 4294967296 := by norm_num
    by_cases hc : 2 ^ 31 ≤ u
    · have hb : u &&& 0x80000000 ≠ 0 := hbit.mpr hc
      simp [hb] at hs
      omega
    · have hb : ¬(u &&& 0x80000000 ≠ 0) := fun h => hc (hbit.mp h)
      simp [hb] at hs
      omega

/-- Witness for C9 at frame [0xFFFF, 0xFFFF] (BE): u32 value 4294967295,
s32 value -1, congruent modulo 2^32 and within the signed 32-bit range. -/
theorem c9_witness :
    (decode_u32_pairs [0xFFFF, 0xFFFF] true)[0]? = some 4294967295 ∧
    (decode_s32_pairs [0xFFFF, 0xFFFF] true)[0]? = some (-1) ∧
    ((-1 : Int) % 2 ^ 32 = ((4294967295 : Nat) : Int) % 2 ^ 32 ∧
      -2 ^ 31 ≤ (-1 : Int) ∧ (-1 : Int) ≤ 2 ^ 31 - 1 ∧
      ((4294967295 : Nat) < 2 ^ 31 → (-1 : Int) = ((4294967295 : Nat) : Int)) ∧
      (2 ^ 31 ≤ (4294967295 : Nat) → (-1 : Int) = ((4294967295 : Nat) : Int) - 2 ^ 32)) :=
  ⟨by decide, by decide,
   (c9_s32_u32_reinterpretation [0xFFFF, 0xFFFF] true).2 0 4294967295 (-1)
     (by decide) (by decide)⟩

/-- C10: in the ASCII loop a scale divisor of 0 never divides: for every
line the pattern matches, the scaled value with divisor 0 is exactly the
parsed value, and the division guard leaves the value unchanged. -/
theorem c10_zero_divisor_skipped (data : List Char) (v : ℚ)
    (h : ascii_parsed_value data = some v) :
    ascii_scaled_value data 0 = some v ∧ applyDivisor 0 v = v := by
  have hd : applyDivisor 0 v = v := by simp [applyDivisor]
  refine ⟨?_, hd⟩
  rw [ascii_scaled_value, h]
  simp [hd]

/-- Witness for C10 at line "w 1.5x": parsed value 3 / 2, emitted unchanged
under divisor 0. -/
theorem c10_witness :
    ascii_parsed_value "w 1.5x".toList = some (3 / 2) ∧
    ascii_scaled_value "w 1.5x".toList 0 = some (3 / 2) ∧
    applyDivisor 0 ((3 : ℚ) / 2) = 3 / 2 := by
  have h : ascii_parsed_value "w 1.5x".toList = some (3 / 2) := by
    simp +decide [ascii_parsed_value, pyStrip, searchNumber, matchNumber,
      parseNumberToken, parseUnsigned, natOfDigits, spanDigits, String.toList]
    norm_num
  exact ⟨h, (c10_zero_divisor_skipped _ _ h).1, (c10_zero_divisor_skipped _ _ h).2⟩

end Weighbridge
